import Mathlib

/-!
# Verification of the campaign CRUD service (src/main.py)

Shallow embedding of the FastAPI + SQLModel + SQLite campaign service.

Modelling choices, each traceable to the source:

* A campaign row (`Campaign`, src/main.py lines 10-16) keeps its four
  columns.  Timestamps are modelled as integers (`Int`), `due_date` as
  `Option Int` since the column is nullable.  After insertion the primary
  key is always assigned, so in stored rows `campaign_id : Nat`.
* The SQLite table is a `Store := List Campaign`, kept in rowid order
  (which is the physical order a full table scan returns rows in).
* `campaign_id` is declared `int | None = Field(default=None,
  primary_key=True)`, which SQLModel maps to SQLite `INTEGER PRIMARY KEY`
  (an alias of the rowid) WITHOUT the `AUTOINCREMENT` keyword.  SQLite's
  documented rowid assignment for such a column is: one more than the
  largest rowid currently in the table (1 on an empty table).  `nextId`
  embeds exactly that rule; note it can re-issue the id of a deleted row
  when that row held the maximum id.
* `datetime.now(timezone.utc)` / `datetime.now()` are modelled by an
  explicit `now : Int` parameter threaded into the operations that read
  the clock (create and the startup seeding).
* Each handler returns an `HttpOut`: a status code with an enveloped body
  (`Response`, src/main.py lines 70-71), or a status code with an empty
  body (404 from `HTTPException(status_code=404)`, and 204 for delete).
* Request-body parsing into `CampaignCreate` (src/main.py lines 19-21) is
  modelled by `parseCreate` over a `RawBody` that may also carry
  caller-supplied `campaign_id` / `created_at` members; pydantic ignores
  members not declared on the model, which the parser reflects.
-/

/-- A persisted campaign row (table `campaign`, src/main.py lines 10-16). -/
structure Campaign where
  campaign_id : Nat
  name : String
  due_date : Option Int
  created_at : Int
deriving Repr, DecidableEq

/-- The create/update request model (src/main.py lines 19-21). -/
structure CampaignCreate where
  name : String
  due_date : Option Int
deriving Repr, DecidableEq

/-- The response envelope `class Response(BaseModel, Generic[T])` with its
single `data` field (src/main.py lines 70-71). -/
structure Response (α : Type) where
  data : α
deriving Repr, DecidableEq

/-- Outcome of a handler: a status code with an enveloped JSON body, or a
status code with an empty body (404 via `HTTPException`, 204 for delete). -/
inductive HttpOut (α : Type) where
  | ok (status : Nat) (body : Response α)
  | empty (status : Nat)
deriving Repr, DecidableEq

/-- The campaign table, in rowid (= insertion-scan) order. -/
abbrev Store := List Campaign

/-- Largest rowid currently in the table (0 when empty). -/
def maxId (s : Store) : Nat :=
  s.foldr (fun r m => max r.campaign_id m) 0

/-- SQLite rowid assignment for an `INTEGER PRIMARY KEY` column without
`AUTOINCREMENT`: one more than the largest rowid in the table. -/
def nextId (s : Store) : Nat := maxId s + 1

/-- `session.get(Campaign, id)`: primary-key lookup, the first row whose
`campaign_id` equals the requested id. -/
def getById : Store → Nat → Option Campaign
  | [], _ => none
  | r :: rs, i => if r.campaign_id == i then some r else getById rs i

/-- The row `create_campaign` inserts: fields validated from the request
body, `campaign_id` assigned by the store, `created_at` from the
`default_factory` reading the clock (src/main.py lines 14-16, 88-93). -/
def newRow (c : CampaignCreate) (now : Int) (s : Store) : Campaign :=
  { campaign_id := nextId s, name := c.name, due_date := c.due_date,
    created_at := now }

/-- The in-place field assignments of `update_campaign`
(src/main.py lines 102-103): overwrite `name` and `due_date` only. -/
def setFields (c : CampaignCreate) (r : Campaign) : Campaign :=
  { r with name := c.name, due_date := c.due_date }

/-- Overwrite the fields of the row `session.get` found (the first row
with the given id); every other row is untouched. -/
def updateRows : Store → Nat → CampaignCreate → Store
  | [], _, _ => []
  | r :: rs, i, c =>
      if r.campaign_id == i then setFields c r :: rs
      else r :: updateRows rs i c

/-- `session.delete(data)`: remove the row `session.get` found. -/
def deleteRows : Store → Nat → Store
  | [], _ => []
  | r :: rs, i => if r.campaign_id == i then rs else r :: deleteRows rs i

/-- Insert a row into a rowid-sorted list at its rowid position. -/
def insertById (r : Campaign) : Store → Store
  | [] => [r]
  | x :: xs =>
      if r.campaign_id ≤ x.campaign_id then r :: x :: xs
      else x :: insertById r xs

/-- Rowid order of a full table scan: `SELECT` without `ORDER BY` on this
table walks the B-tree in rowid order. -/
def sortById : Store → Store
  | [] => []
  | r :: rs => insertById r (sortById rs)

/-- `session.exec(select(Campaign)).all()` (src/main.py line 76). -/
def listCampaigns (s : Store) : List Campaign := sortById s

/-- Handler `GET /campaigns` (src/main.py lines 74-77): 200 with the
envelope wrapping the full scan; there is no failure branch. -/
def read_campaigns (s : Store) : Nat × Response (List Campaign) :=
  (200, ⟨listCampaigns s⟩)

/-- Handler `GET /campaigns/{id}` (src/main.py lines 80-85). -/
def read_campaign (i : Nat) (s : Store) : HttpOut Campaign :=
  match getById s i with
  | none => .empty 404
  | some r => .ok 200 ⟨r⟩

/-- Handler `POST /campaigns` (src/main.py lines 88-94): validate, insert
(id and created_at assigned), 201 with the refreshed row. -/
def create_campaign (c : CampaignCreate) (now : Int) (s : Store) :
    HttpOut Campaign × Store :=
  (.ok 201 ⟨newRow c now s⟩, s ++ [newRow c now s])

/-- Handler `PUT /campaigns/{id}` (src/main.py lines 97-107): 404 before
any mutation when the id is absent, otherwise overwrite name/due_date and
return the refreshed row. -/
def update_campaign (i : Nat) (c : CampaignCreate) (s : Store) :
    HttpOut Campaign × Store :=
  match getById s i with
  | none => (.empty 404, s)
  | some r => (.ok 200 ⟨setFields c r⟩, updateRows s i c)

/-- Handler `DELETE /campaigns/{id}` (src/main.py lines 110-116): 404
before any mutation when the id is absent, otherwise remove the row and
answer 204 with an empty body. -/
def delete_campaign (i : Nat) (s : Store) : HttpOut Unit × Store :=
  match getById s i with
  | none => (.empty 404, s)
  | some _ => (.empty 204, deleteRows s i)

/-- Startup seeding inside `lifespan` (src/main.py lines 43-56): when the
table is empty (`.first()` is falsy), add the two fixed rows in one unit of
work; both `due_date = datetime.now()` and the `created_at` default factory
read the clock at seed execution.  Ids are assigned sequentially on flush. -/
def seedStore (now : Int) (s : Store) : Store :=
  if s.isEmpty then
    let s1 := s ++ [newRow ⟨"Summer Launch", some now⟩ now s]
    s1 ++ [newRow ⟨"Black Friday", some now⟩ now s1]
  else s

/-- A JSON request body for create/update as the caller may send it: the
declared members plus caller-supplied `campaign_id` / `created_at`
members, which pydantic ignores because `CampaignCreate` does not declare
them. -/
structure RawBody where
  name : Option String
  due_date : Option Int
  campaign_id : Option Nat
  created_at : Option Int
deriving Repr, DecidableEq

/-- Validation of a request body into `CampaignCreate`: `name` is
required (422 otherwise, modelled as `none`), `due_date` defaults to
null, every undeclared member is dropped (src/main.py lines 19-21). -/
def parseCreate (b : RawBody) : Option CampaignCreate :=
  match b.name with
  | none => none
  | some n => some ⟨n, b.due_date⟩

/-- The table invariant: rows sit in strictly increasing rowid order. -/
def TableInv (s : Store) : Prop :=
  (s.map Campaign.campaign_id).Pairwise (fun a b => a < b)

instance (s : Store) : Decidable (TableInv s) := by
  unfold TableInv; infer_instance

/-- States of the table reachable by the service: the fresh database, and
closure under startup seeding and the three mutating handlers. -/
inductive Reach : Store → Prop where
  | empty : Reach []
  | seed (now : Int) {s : Store} : Reach s → Reach (seedStore now s)
  | create (c : CampaignCreate) (now : Int) {s : Store} :
      Reach s → Reach (create_campaign c now s).2
  | update (i : Nat) (c : CampaignCreate) {s : Store} :
      Reach s → Reach (update_campaign i c s).2
  | delete (i : Nat) {s : Store} :
      Reach s → Reach (delete_campaign i s).2

/-! ## Helper lemmas -/

theorem foldr_max_init (s : Store) (a : Nat) :
    s.foldr (fun r m => max r.campaign_id m) a = max (maxId s) a := by
  induction s with
  | nil => simp [maxId]
  | cons x xs ih => simp [maxId, List.foldr_cons, ih, Nat.max_assoc]

theorem maxId_append_single (s : Store) (r : Campaign) :
    maxId (s ++ [r]) = max (maxId s) r.campaign_id := by
  show (s ++ [r]).foldr (fun r m => max r.campaign_id m) 0 = _
  rw [List.foldr_append, foldr_max_init]
  simp

theorem mem_le_maxId {r : Campaign} {s : Store} (h : r ∈ s) :
    r.campaign_id ≤ maxId s := by
  induction s with
  | nil => cases h
  | cons x xs ih =>
      rcases List.mem_cons.1 h with h | h
      · subst h; simp [maxId]
      · calc r.campaign_id ≤ maxId xs := ih h
          _ ≤ maxId (x :: xs) := by simp [maxId]

theorem getById_eq_none_iff {s : Store} {i : Nat} :
    getById s i = none ↔ ∀ r ∈ s, r.campaign_id ≠ i := by
  induction s with
  | nil => simp [getById]
  | cons x xs ih =>
      cases hx : (x.campaign_id == i) with
      | true =>
          simp only [getById, hx, if_true]
          constructor
          · intro h; cases h
          · intro h
            exact absurd (beq_iff_eq.1 hx) (h x (List.mem_cons_self x xs))
      | false =>
          simp only [getById, hx, Bool.false_eq_true, if_false, ih]
          constructor
          · intro h r hr
            rcases List.mem_cons.1 hr with hr | hr
            · subst hr; exact fun he => by simp [he] at hx
            · exact h r hr
          · intro h r hr; exact h r (List.mem_cons_of_mem x hr)

theorem getById_fresh (s : Store) :
    getById s (nextId s) = none := by
  refine getById_eq_none_iff.2 (fun r hr => ?_)
  have := mem_le_maxId hr
  simp only [nextId]
  omega

theorem getById_append_none {s : Store} (t : Store) {i : Nat}
    (h : getById s i = none) : getById (s ++ t) i = getById t i := by
  induction s with
  | nil => simp
  | cons x xs ih =>
      cases hx : (x.campaign_id == i) with
      | true => simp only [getById, hx, if_true] at h; cases h
      | false =>
          simp only [getById, hx, Bool.false_eq_true, if_false] at h
          simp only [List.cons_append, getById, hx, Bool.false_eq_true,
            if_false]
          exact ih h

theorem getById_singleton_self (r : Campaign) :
    getById [r] r.campaign_id = some r := by
  simp [getById]

theorem getById_updateRows_self {s : Store} {i : Nat} {r : Campaign}
    (c : CampaignCreate) (h : getById s i = some r) :
    getById (updateRows s i c) i = some (setFields c r) := by
  induction s with
  | nil => simp [getById] at h
  | cons x xs ih =>
      cases hx : (x.campaign_id == i) with
      | true =>
          simp only [getById, hx, if_true] at h
          cases h
          simp [updateRows, getById, setFields, hx]
      | false =>
          simp only [getById, hx, Bool.false_eq_true, if_false] at h
          simp only [updateRows, hx, Bool.false_eq_true, if_false, getById]
          exact ih h

theorem updateRows_map_id (s : Store) (i : Nat) (c : CampaignCreate) :
    (updateRows s i c).map Campaign.campaign_id =
      s.map Campaign.campaign_id := by
  induction s with
  | nil => rfl
  | cons x xs ih =>
      cases hx : (x.campaign_id == i) with
      | true => simp [updateRows, hx, setFields]
      | false => simp [updateRows, hx, ih]

theorem updateRows_map_id_created (s : Store) (i : Nat) (c : CampaignCreate) :
    (updateRows s i c).map (fun r => (r.campaign_id, r.created_at)) =
      s.map (fun r => (r.campaign_id, r.created_at)) := by
  induction s with
  | nil => rfl
  | cons x xs ih =>
      cases hx : (x.campaign_id == i) with
      | true => simp [updateRows, hx, setFields]
      | false => simp [updateRows, hx, ih]

theorem getById_none_of_not_mem_map {s : Store} {i : Nat}
    (h : i ∉ s.map Campaign.campaign_id) : getById s i = none := by
  refine getById_eq_none_iff.2 (fun r hr he => ?_)
  exact h (he ▸ List.mem_map_of_mem Campaign.campaign_id hr)

theorem getById_updateRows_none {s : Store} {j : Nat}
    (i : Nat) (c : CampaignCreate) (h : getById s j = none) :
    getById (updateRows s i c) j = none := by
  refine getById_none_of_not_mem_map ?_
  rw [updateRows_map_id]
  intro hm
  rcases List.mem_map.1 hm with ⟨r, hr, he⟩
  exact (getById_eq_none_iff.1 h) r hr he

theorem deleteRows_sublist (s : Store) (i : Nat) :
    List.Sublist (deleteRows s i) s := by
  induction s with
  | nil => simp [deleteRows]
  | cons x xs ih =>
      cases hx : (x.campaign_id == i) with
      | true =>
          simp only [deleteRows, hx, if_true]
          exact List.sublist_cons_self x xs
      | false =>
          simp only [deleteRows, hx, Bool.false_eq_true, if_false]
          exact ih.cons₂ x

theorem getById_deleteRows_none {s : Store} {j : Nat}
    (i : Nat) (h : getById s j = none) :
    getById (deleteRows s i) j = none := by
  refine getById_eq_none_iff.2 (fun r hr => ?_)
  exact (getById_eq_none_iff.1 h) r ((deleteRows_sublist s i).subset hr)

theorem nextId_append_newRow (s : Store) (c : CampaignCreate) (now : Int) :
    nextId (s ++ [newRow c now s]) = nextId s + 1 := by
  simp only [nextId, maxId_append_single, newRow]
  omega

theorem tableInv_append_newRow {s : Store} (c : CampaignCreate) (now : Int)
    (h : TableInv s) : TableInv (s ++ [newRow c now s]) := by
  unfold TableInv at *
  rw [List.map_append, List.pairwise_append]
  refine ⟨h, by simp, ?_⟩
  intro a ha b hb
  rcases List.mem_map.1 ha with ⟨r, hr, he⟩
  simp only [List.map_cons, List.map_nil, List.mem_singleton] at hb
  subst he; subst hb
  have := mem_le_maxId hr
  show r.campaign_id < (newRow c now s).campaign_id
  simp only [newRow, nextId]
  omega

theorem tableInv_updateRows {s : Store} (i : Nat) (c : CampaignCreate)
    (h : TableInv s) : TableInv (updateRows s i c) := by
  unfold TableInv at *
  rw [updateRows_map_id]
  exact h

theorem tableInv_deleteRows {s : Store} (i : Nat)
    (h : TableInv s) : TableInv (deleteRows s i) := by
  unfold TableInv at *
  exact List.Pairwise.sublist ((deleteRows_sublist s i).map _) h

theorem tableInv_seedStore {s : Store} (now : Int)
    (h : TableInv s) : TableInv (seedStore now s) := by
  unfold seedStore
  cases s with
  | nil =>
      simp only [List.isEmpty_nil, if_true]
      unfold TableInv newRow nextId maxId
      simp
  | cons x xs =>
      simp only [List.isEmpty_cons, Bool.false_eq_true, if_false]
      exact h

theorem reach_tableInv {s : Store} (h : Reach s) : TableInv s := by
  induction h with
  | empty => simp [TableInv]
  | seed now _ ih => exact tableInv_seedStore now ih
  | create c now _ ih => exact tableInv_append_newRow c now ih
  | update i c _ ih =>
      unfold update_campaign
      cases hg : getById _ i with
      | none => exact ih
      | some r => exact tableInv_updateRows i c ih
  | delete i _ ih =>
      unfold delete_campaign
      cases hg : getById _ i with
      | none => exact ih
      | some r => exact tableInv_deleteRows i ih

theorem getById_deleteRows_self {s : Store} (i : Nat)
    (h : TableInv s) : getById (deleteRows s i) i = none := by
  induction s with
  | nil => simp [deleteRows, getById]
  | cons x xs ih =>
      unfold TableInv at h
      rw [List.map_cons, List.pairwise_cons] at h
      obtain ⟨hx, hxs⟩ := h
      cases he : (x.campaign_id == i) with
      | true =>
          simp only [deleteRows, he, if_true]
          refine getById_eq_none_iff.2 (fun r hr hri => ?_)
          have hlt := hx r.campaign_id (List.mem_map_of_mem _ hr)
          rw [hri, beq_iff_eq.1 he] at hlt
          omega
      | false =>
          simp only [deleteRows, he, Bool.false_eq_true, if_false, getById]
          exact ih hxs

theorem insertById_of_lt_head {x : Campaign} {xs : Store}
    (h : ∀ y ∈ xs, x.campaign_id < y.campaign_id) :
    insertById x xs = x :: xs := by
  cases xs with
  | nil => rfl
  | cons y ys =>
      have := h y (List.mem_cons_self y ys)
      simp [insertById, Nat.le_of_lt this]

theorem sortById_eq_self {s : Store} (h : TableInv s) : sortById s = s := by
  induction s with
  | nil => rfl
  | cons x xs ih =>
      unfold TableInv at h
      rw [List.map_cons, List.pairwise_cons] at h
      obtain ⟨hx, hxs⟩ := h
      rw [sortById, ih hxs]
      exact insertById_of_lt_head (fun y hy =>
        hx y.campaign_id (List.mem_map_of_mem _ hy))

/-! ## Claims -/

/-- Claim C1: for every store state and valid create input, creating a
campaign and then getting it by the returned id yields a row whose name
and due_date equal the create input field for field; and for every
existing id, updating then getting yields the new name and due_date while
the row keeps its id and created_at from before the update. -/
theorem c1_create_update_get_roundtrip (s : Store) (c c2 : CampaignCreate)
    (now : Int) (i : Nat) (r : Campaign) :
    ((create_campaign c now s).1 = .ok 201 ⟨newRow c now s⟩ ∧
     getById (create_campaign c now s).2 (newRow c now s).campaign_id =
       some (newRow c now s) ∧
     (newRow c now s).name = c.name ∧
     (newRow c now s).due_date = c.due_date) ∧
    (getById s i = some r →
      (update_campaign i c2 s).1 = .ok 200 ⟨setFields c2 r⟩ ∧
      getById (update_campaign i c2 s).2 i = some (setFields c2 r) ∧
      (setFields c2 r).name = c2.name ∧
      (setFields c2 r).due_date = c2.due_date ∧
      (setFields c2 r).campaign_id = r.campaign_id ∧
      (setFields c2 r).created_at = r.created_at) := by
  constructor
  · refine ⟨rfl, ?_, rfl, rfl⟩
    show getById (s ++ [newRow c now s]) (newRow c now s).campaign_id = _
    have hfresh : getById s (newRow c now s).campaign_id = none :=
      getById_fresh s
    rw [getById_append_none _ hfresh]
    exact getById_singleton_self _
  · intro h
    refine ⟨?_, ?_, rfl, rfl, rfl, rfl⟩
    · simp [update_campaign, h]
    · simp only [update_campaign, h]
      exact getById_updateRows_self c2 h

theorem c1_roundtrip_witness :
    getById (create_campaign ⟨"Spring", some 3⟩ 9 []).2
        (newRow ⟨"Spring", some 3⟩ 9 []).campaign_id =
      some (newRow ⟨"Spring", some 3⟩ 9 []) ∧
    getById (update_campaign 1 ⟨"Renamed", some 9⟩ (seedStore 0 [])).2 1 =
      some (setFields ⟨"Renamed", some 9⟩ ⟨1, "Summer Launch", some 0, 0⟩) :=
  ⟨(c1_create_update_get_roundtrip [] ⟨"Spring", some 3⟩ ⟨"x", none⟩ 9 1
      ⟨1, "a", none, 0⟩).1.2.1,
   ((c1_create_update_get_roundtrip (seedStore 0 []) ⟨"Spring", some 3⟩
      ⟨"Renamed", some 9⟩ 9 1 ⟨1, "Summer Launch", some 0, 0⟩).2
      (by decide)).2.1⟩

/-- Claim C2: for every id with no matching row, get, update and delete
each answer 404 with an empty body and leave the table unchanged; for an
id that exists, none of the three answers 404: they answer 200, 200 and
204 respectively. -/
theorem c2_not_found_semantics (s : Store) (i j : Nat)
    (c c2 : CampaignCreate) (r : Campaign) :
    (getById s i = none →
      read_campaign i s = .empty 404 ∧
      update_campaign i c s = (.empty 404, s) ∧
      delete_campaign i s = (.empty 404, s)) ∧
    (getById s j = some r →
      read_campaign j s = .ok 200 ⟨r⟩ ∧
      (update_campaign j c2 s).1 = .ok 200 ⟨setFields c2 r⟩ ∧
      (delete_campaign j s).1 = .empty 204) := by
  constructor
  · intro hnone
    refine ⟨?_, ?_, ?_⟩ <;>
      simp [read_campaign, update_campaign, delete_campaign, hnone]
  · intro hsome
    refine ⟨?_, ?_, ?_⟩ <;>
      simp [read_campaign, update_campaign, delete_campaign, hsome]

theorem c2_not_found_witness :
    (read_campaign 5 [] = .empty 404 ∧
     update_campaign 5 ⟨"a", none⟩ [] = (.empty 404, ([] : Store)) ∧
     delete_campaign 5 [] = (.empty 404, ([] : Store))) ∧
    read_campaign 1 (seedStore 0 []) =
      .ok 200 ⟨⟨1, "Summer Launch", some 0, 0⟩⟩ :=
  ⟨(c2_not_found_semantics [] 5 1 ⟨"a", none⟩ ⟨"b", none⟩
      ⟨1, "a", none, 0⟩).1 (by decide),
   ((c2_not_found_semantics (seedStore 0 []) 5 1 ⟨"a", none⟩ ⟨"b", none⟩
      ⟨1, "Summer Launch", some 0, 0⟩).2 (by decide)).1⟩

/-- Claim C3: update is full replacement of the two mutable fields: for
an existing id, the stored name is always set to the input name, and when
the input omits due_date (due_date = null) the stored due_date becomes
null even if it was previously set. -/
theorem c3_update_full_replacement (s : Store) (i : Nat)
    (c : CampaignCreate) (r : Campaign)
    (h : getById s i = some r) (hnull : c.due_date = none) :
    (update_campaign i c s).1 = .ok 200 ⟨setFields c r⟩ ∧
    getById (update_campaign i c s).2 i = some (setFields c r) ∧
    (setFields c r).name = c.name ∧
    (setFields c r).due_date = none := by
  refine ⟨?_, ?_, rfl, hnull⟩
  · simp [update_campaign, h]
  · simp only [update_campaign, h]
    exact getById_updateRows_self c h

theorem c3_update_witness :
    getById (seedStore 0 []) 1 = some ⟨1, "Summer Launch", some 0, 0⟩ ∧
    getById (update_campaign 1 ⟨"Renamed", none⟩ (seedStore 0 [])).2 1 =
      some (setFields ⟨"Renamed", none⟩ ⟨1, "Summer Launch", some 0, 0⟩) :=
  ⟨by decide,
   (c3_update_full_replacement (seedStore 0 []) 1 ⟨"Renamed", none⟩
      ⟨1, "Summer Launch", some 0, 0⟩ (by decide) rfl).2.1⟩

/-- Claim C4: every create returns a row with an assigned id strictly
greater than zero and a created_at equal to the clock reading taken
during the request; two successive creates return distinct ids. -/
theorem c4_create_fresh_positive_id (c c2 : CampaignCreate)
    (now now2 : Int) (s : Store) :
    (create_campaign c now s).1 = .ok 201 ⟨newRow c now s⟩ ∧
    0 < (newRow c now s).campaign_id ∧
    (newRow c now s).created_at = now ∧
    (create_campaign c2 now2 (create_campaign c now s).2).1 =
      .ok 201 ⟨newRow c2 now2 (create_campaign c now s).2⟩ ∧
    (newRow c2 now2 (create_campaign c now s).2).campaign_id ≠
      (newRow c now s).campaign_id := by
  refine ⟨rfl, ?_, rfl, rfl, ?_⟩
  · show 0 < nextId s
    simp [nextId]
  · show nextId (s ++ [newRow c now s]) ≠ nextId s
    rw [nextId_append_newRow]
    omega

/-- Claim C5: seeding on an empty table inserts exactly the two fixed
rows "Summer Launch" and "Black Friday" with due_date read from the clock
at seed time, listing a fresh store returns exactly those two rows, and
seeding a non-empty table inserts nothing. -/
theorem c5_seed_two_rows (now : Int) (s : Store) (h : s ≠ []) :
    seedStore now [] =
      [⟨1, "Summer Launch", some now, now⟩,
       ⟨2, "Black Friday", some now, now⟩] ∧
    read_campaigns (seedStore now []) =
      (200, ⟨[⟨1, "Summer Launch", some now, now⟩,
              ⟨2, "Black Friday", some now, now⟩]⟩) ∧
    seedStore now s = s := by
  refine ⟨rfl, rfl, ?_⟩
  cases s with
  | nil => exact absurd rfl h
  | cons x xs => rfl

theorem c5_seed_witness :
    ([⟨1, "exists", none, 0⟩] : Store) ≠ [] ∧
    seedStore 7 [] =
      [⟨1, "Summer Launch", some 7, 7⟩, ⟨2, "Black Friday", some 7, 7⟩] ∧
    seedStore 7 [⟨1, "exists", none, 0⟩] = [⟨1, "exists", none, 0⟩] :=
  ⟨by decide,
   (c5_seed_two_rows 7 [⟨1, "exists", none, 0⟩] (by decide)).1,
   (c5_seed_two_rows 7 [⟨1, "exists", none, 0⟩] (by decide)).2.2⟩

/-- Claim C6: once a delete for an id succeeds, that id is gone: a repeat
delete answers 404 and changes nothing, and the id never reappears under
any later get, update or delete, nor under a create whose assigned id
differs from it. -/
theorem c6_delete_idempotent_no_resurrect (s t : Store) (i j k : Nat)
    (c c2 : CampaignCreate) (now : Int) (hInv : TableInv s)
    (hdel : (delete_campaign i s).1 = .empty 204)
    (habs : getById t i = none)
    (hfresh : (newRow c2 now t).campaign_id ≠ i) :
    getById (delete_campaign i s).2 i = none ∧
    (delete_campaign i (delete_campaign i s).2).1 = .empty 404 ∧
    (delete_campaign i (delete_campaign i s).2).2 = (delete_campaign i s).2 ∧
    getById (update_campaign j c t).2 i = none ∧
    getById (delete_campaign k t).2 i = none ∧
    getById (create_campaign c2 now t).2 i = none := by
  have hgone : getById (delete_campaign i s).2 i = none := by
    cases hg : getById s i with
    | none =>
        simp only [delete_campaign, hg] at hdel
        exact absurd hdel (by decide)
    | some r =>
        simp only [delete_campaign, hg]
        exact getById_deleteRows_self i hInv
  refine ⟨hgone, ?_, ?_, ?_, ?_, ?_⟩
  · generalize (delete_campaign i s).2 = s2 at hgone ⊢
    simp [delete_campaign, hgone]
  · generalize (delete_campaign i s).2 = s2 at hgone ⊢
    simp [delete_campaign, hgone]
  · cases hg : getById t j with
    | none => simpa [update_campaign, hg] using habs
    | some r =>
        simp only [update_campaign, hg]
        exact getById_updateRows_none j c habs
  · cases hg : getById t k with
    | none => simpa [delete_campaign, hg] using habs
    | some r =>
        simp only [delete_campaign, hg]
        exact getById_deleteRows_none k habs
  · show getById (t ++ [newRow c2 now t]) i = none
    rw [getById_append_none _ habs]
    simp [getById, hfresh]

theorem c6_delete_witness :
    (delete_campaign 2 (seedStore 0 [])).1 = .empty 204 ∧
    getById (delete_campaign 2 (seedStore 0 [])).2 2 = none ∧
    (delete_campaign 2 (delete_campaign 2 (seedStore 0 [])).2).1 =
      .empty 404 :=
  ⟨by decide,
   (c6_delete_idempotent_no_resurrect (seedStore 0 []) [] 2 1 1
      ⟨"a", none⟩ ⟨"b", none⟩ 5 (by decide) (by decide) (by decide)
      (by decide)).1,
   (c6_delete_idempotent_no_resurrect (seedStore 0 []) [] 2 1 1
      ⟨"a", none⟩ ⟨"b", none⟩ 5 (by decide) (by decide) (by decide)
      (by decide)).2.1⟩

/-- Claim C7 is refuted on the code: `campaign_id` is an SQLite INTEGER
PRIMARY KEY without AUTOINCREMENT, so a new row gets max(id)+1.  On the
freshly seeded table, deleting row 2 ("Black Friday") succeeds, and the
next create is assigned id 2 again: an id of a previously deleted row is
reused. -/
theorem c7_counterexample_id_reuse :
    getById (seedStore 0 []) 2 = some ⟨2, "Black Friday", some 0, 0⟩ ∧
    (delete_campaign 2 (seedStore 0 [])).1 = .empty 204 ∧
    (create_campaign ⟨"Spring Sale", none⟩ 5
        (delete_campaign 2 (seedStore 0 [])).2).1 =
      .ok 201 ⟨⟨2, "Spring Sale", none, 5⟩⟩ := by
  refine ⟨by decide, by decide, by decide⟩

/-- Claim C7 (amended): ids are immutable and unique — in every reachable
table state the row ids are pairwise distinct, and an update never
changes any row's id — but an id CAN be reused after deletion: when the
deleted row held the largest id, the next create is assigned that id
again. -/
theorem c7_id_immutable_unique (s : Store) (hs : Reach s) (i : Nat)
    (c : CampaignCreate) :
    (s.map Campaign.campaign_id).Pairwise (fun a b => a ≠ b) ∧
    ((update_campaign i c s).2).map Campaign.campaign_id =
      s.map Campaign.campaign_id := by
  constructor
  · exact (reach_tableInv hs).imp Nat.ne_of_lt
  · cases hg : getById s i with
    | none => simp [update_campaign, hg]
    | some r =>
        simp only [update_campaign, hg]
        exact updateRows_map_id s i c

theorem c7_amended_witness :
    ((seedStore 0 []).map Campaign.campaign_id).Pairwise
      (fun a b => a ≠ b) ∧
    ((update_campaign 1 ⟨"x", none⟩ (seedStore 0 [])).2).map
        Campaign.campaign_id =
      (seedStore 0 []).map Campaign.campaign_id :=
  c7_id_immutable_unique (seedStore 0 []) (Reach.seed 0 Reach.empty) 1
    ⟨"x", none⟩

/-- Claim C8: created_at and campaign_id are assigned only by the
service: request-body members named campaign_id or created_at are dropped
by validation (identical parse result whatever their value), a created
row's created_at is the service clock reading and its id the store's
assignment, and update changes no row's id or created_at. -/
theorem c8_caller_cannot_set_id_created_at (b : RawBody) (s : Store)
    (i : Nat) (c : CampaignCreate) (now : Int) :
    parseCreate b = parseCreate ⟨b.name, b.due_date, none, none⟩ ∧
    (newRow c now s).created_at = now ∧
    (newRow c now s).campaign_id = nextId s ∧
    ((update_campaign i c s).2).map (fun r => (r.campaign_id, r.created_at)) =
      s.map (fun r => (r.campaign_id, r.created_at)) := by
  refine ⟨?_, rfl, rfl, ?_⟩
  · cases hb : b.name with
    | none => simp [parseCreate, hb]
    | some n => simp [parseCreate, hb]
  · cases hg : getById s i with
    | none => simp [update_campaign, hg]
    | some r =>
        simp only [update_campaign, hg]
        exact updateRows_map_id_created s i c

/-- Claim C9: in every reachable table state, listing answers 200 and
returns every row of the table with no omission, in insertion (rowid)
order. -/
theorem c9_list_all_insertion_order (s : Store) (hs : Reach s) :
    read_campaigns s = (200, ⟨s⟩) := by
  rw [read_campaigns, listCampaigns, sortById_eq_self (reach_tableInv hs)]

theorem c9_list_witness :
    read_campaigns (seedStore 0 []) = (200, ⟨seedStore 0 []⟩) :=
  c9_list_all_insertion_order (seedStore 0 []) (Reach.seed 0 Reach.empty)

/-- Claim C10: listing an empty table still answers 200 with the envelope
wrapping an empty array, and the list handler answers 200 on every table
state — it has no 404 branch. -/
theorem c10_list_empty_ok (s : Store) :
    read_campaigns [] = (200, ⟨[]⟩) ∧ (read_campaigns s).1 = 200 :=
  ⟨rfl, rfl⟩
